import Mathlib

/-!
Verification of the IPv4 addressing engine of ipCalc-network.

The definitions below are a shallow embedding of the utility module
`src/utils/ipUtils.ts` (conversion layer, network derivation engine and
subnet partitioner).  JavaScript numbers are modelled as `Nat`, with the
`>>> 0` / `ToUint32` coercions made explicit as `% 2 ^ 32`; JavaScript
strings are modelled as `String` (lists of characters).
-/

/-- Models the JavaScript expression `~x >>> 0` on a 32-bit quantity:
complement of the low 32 bits of `x`, read back as an unsigned number. -/
def jsNot32 (x : Nat) : Nat := 4294967295 - x % 2 ^ 32

/-- Splits a character list at every `'.'`, keeping empty segments — the
behaviour of the JavaScript `ip.split('.')` used throughout the module. -/
def splitDot : List Char → List (List Char)
  | [] => [[]]
  | c :: cs =>
    if c = '.' then [] :: splitDot cs
    else
      match splitDot cs with
      | [] => [[c]]
      | p :: ps => (c :: p) :: ps

/-- Is `c` one of the characters `'0'`–`'9'` (code points 48–57)? -/
def isDig (c : Char) : Bool := 48 ≤ c.toNat && c.toNat ≤ 57

/-- Models `parseInt(s, 10)` for strings without sign or whitespace: the
value of the leading run of decimal digits.  A string with no leading
digit gives `NaN` in JavaScript, which every bitwise consumer in the
module coerces to `0`, matching the `0` produced here. -/
def parseDec (p : List Char) : Nat :=
  (p.takeWhile isDig).foldl (fun n c => n * 10 + (c.toNat - 48)) 0

/-- The character of a decimal digit: code point 48 + k for k below 10. -/
def digChar (k : Nat) : Char := Char.ofNat (48 + k % 10)

/-- Decimal rendering of a number below 1000 (the JavaScript
`Number.prototype.toString` as applied to an octet, which is below 256). -/
def decChars (n : Nat) : List Char :=
  if n < 10 then [digChar n]
  else if n < 100 then [digChar (n / 10), digChar (n % 10)]
  else [digChar (n / 100), digChar (n / 10 % 10), digChar (n % 10)]

/-- Models `Array.prototype.join(sep)`. -/
def joinWith (sep : String) : List String → String
  | [] => ""
  | [s] => s
  | s :: ss => s ++ sep ++ joinWith sep ss

/-- Inverse of `splitDot`: gluing the segments back with dots. -/
def joinDot : List (List Char) → List Char
  | [] => []
  | [p] => p
  | p :: ps => p ++ '.' :: joinDot ps

/-- A digit segment is in canonical form when it does not start with a
superfluous zero: `"0"` is canonical, `"01"` or `"010"` are not.  Exactly
the segments produced by `decChars`. -/
def noLeadingZeros (p : List Char) : Bool :=
  match p with
  | '0' :: _ :: _ => false
  | _ => true

/-- Does one dot-free segment match the octet alternation
`25[0-5]|2[0-4][0-9]|[01]?[0-9][0-9]?` of the validation regex in
`isValidIP`?  The character classes are spelled as code-point ranges
(48–57 is `0`–`9`, 48–53 is `0`–`5`, 48–52 is `0`–`4`). -/
def octetMatches (p : List Char) : Bool :=
  match p with
  | [c1] => isDig c1
  | [c1, c2] => isDig c1 && isDig c2
  | [c1, c2, c3] =>
    (c1 = '2' && c2 = '5' && 48 ≤ c3.toNat && c3.toNat ≤ 53) ||
    (c1 = '2' && 48 ≤ c2.toNat && c2.toNat ≤ 52 && isDig c3) ||
    ((c1 = '0' || c1 = '1') && isDig c2 && isDig c3)
  | _ => false

/-- `isValidIP` from the source: the anchored regex
`^(octet)\.(octet)\.(octet)\.(octet)$` matches exactly when the string
splits at dots into four segments, each matching the octet alternation. -/
def isValidIP (ip : String) : Bool :=
  match splitDot ip.data with
  | [p1, p2, p3, p4] => octetMatches p1 && octetMatches p2 && octetMatches p3 && octetMatches p4
  | _ => false

/-- `ipToInt` from the source:
`((parseInt(parts[0]) << 24) | (parseInt(parts[1]) << 16) | (parseInt(parts[2]) << 8) | parseInt(parts[3])) >>> 0`.
Each JavaScript `<<`/`|` truncates its operand to 32 bits, hence the
`% 2 ^ 32` on every term. -/
def ipToInt (ip : String) : Nat :=
  let parts := splitDot ip.data
  ((parseDec (parts.getD 0 []) <<< 24) % 2 ^ 32) |||
  ((parseDec (parts.getD 1 []) <<< 16) % 2 ^ 32) |||
  ((parseDec (parts.getD 2 []) <<< 8) % 2 ^ 32) |||
  (parseDec (parts.getD 3 []) % 2 ^ 32)

/-- `intToIp` from the source:
`[(int >>> 24) & 255, (int >>> 16) & 255, (int >>> 8) & 255, int & 255].join('.')`.
The JavaScript `>>>` first coerces `int` to a 32-bit unsigned value,
hence the `% 2 ^ 32`. -/
def intToIp (int : Nat) : String :=
  joinWith "." [
    String.mk (decChars (((int % 2 ^ 32) >>> 24) &&& 255)),
    String.mk (decChars (((int % 2 ^ 32) >>> 16) &&& 255)),
    String.mk (decChars (((int % 2 ^ 32) >>> 8) &&& 255)),
    String.mk (decChars ((int % 2 ^ 32) &&& 255))]

/-- `cidrToSubnetMask` from the source: `intToIp(~(0xffffffff >>> cidr) >>> 0)`.
A JavaScript shift uses only the low five bits of its right operand,
hence the `% 32` on the shift count (this is what makes `cidr = 32`
behave like `cidr = 0`). -/
def cidrToSubnetMask (cidr : Nat) : String :=
  let mask := jsNot32 (4294967295 >>> (cidr % 32))
  intToIp mask

/-- `subnetMaskToCidr` from the source: counts the set bits of the mask by
testing `mask & (1 << (31 - i))` for `i = 0, …, 31`. -/
def subnetMaskToCidr (subnetMask : String) : Nat :=
  let mask := ipToInt subnetMask
  (List.range 32).foldl
    (fun count i => if mask &&& ((1 <<< (31 - i)) % 2 ^ 32) ≠ 0 then count + 1 else count) 0

/-- `toBinary` from the source: `num.toString(2).padStart(padding, '0')`. -/
def toBinary (num : Nat) (padding : Nat) : String :=
  let s := Nat.toDigits 2 num
  String.mk (List.replicate (padding - s.length) '0' ++ s)

/-- `ipToBinary` from the source: per-octet 8-bit binary strings joined
with spaces. -/
def ipToBinary (ip : String) : String :=
  joinWith " " ((splitDot ip.data).map (fun octet => toBinary (parseDec octet) 8))

/-- `calculateNetworkAddress` from the source: `intToIp(ipInt & maskInt)`. -/
def calculateNetworkAddress (ip subnetMask : String) : String :=
  let ipInt := ipToInt ip
  let maskInt := ipToInt subnetMask
  let networkInt := ipInt &&& maskInt
  intToIp networkInt

/-- `calculateBroadcastAddress` from the source:
`intToIp((ipInt & maskInt) | (~maskInt >>> 0))`. -/
def calculateBroadcastAddress (ip subnetMask : String) : String :=
  let ipInt := ipToInt ip
  let maskInt := ipToInt subnetMask
  let networkInt := ipInt &&& maskInt
  let invertedMaskInt := jsNot32 maskInt
  intToIp (networkInt ||| invertedMaskInt)

/-- `calculateFirstHost` from the source: `intToIp(networkInt + 1)`. -/
def calculateFirstHost (networkAddress : String) : String :=
  intToIp (ipToInt networkAddress + 1)

/-- `calculateLastHost` from the source: `intToIp(broadcastInt - 1)`.
JavaScript would wrap `0 - 1` to `2 ^ 32 - 1` inside `intToIp`; every
mask this module produces has a zero bit, so every broadcast address is
positive and the truncated `Nat` subtraction agrees with JavaScript. -/
def calculateLastHost (broadcastAddress : String) : String :=
  intToIp (ipToInt broadcastAddress - 1)

/-- `calculateWildcardMask` from the source: `intToIp(~maskInt >>> 0)`. -/
def calculateWildcardMask (subnetMask : String) : String :=
  intToIp (jsNot32 (ipToInt subnetMask))

/-- The `IPResult` interface of the source. -/
structure IPResult where
  networkAddress : String
  broadcastAddress : String
  firstValidHost : String
  lastValidHost : String
  totalHosts : Nat
  usableHosts : Nat
  cidr : Nat
  subnetMask : String
  binarySubnetMask : String
  binaryIpAddress : String
  binaryNetworkAddress : String
  wildcardMask : String
  subnetBits : Nat
  hostBits : Nat
  deriving DecidableEq

/-- `calculateIPInfo` from the source.  `totalHosts = Math.pow(2, 32 - cidr)`
is exact for `cidr ≤ 32`; the fractional value JavaScript produces for a
prefix above 32 is outside this model (no theorem below evaluates
`totalHosts` there). -/
def calculateIPInfo (ip : String) (cidr : Nat) : IPResult :=
  let subnetMask := cidrToSubnetMask cidr
  let networkAddress := calculateNetworkAddress ip subnetMask
  let broadcastAddress := calculateBroadcastAddress ip subnetMask
  let firstValidHost := calculateFirstHost networkAddress
  let lastValidHost := calculateLastHost broadcastAddress
  let totalHosts := 2 ^ (32 - cidr)
  let usableHosts := if totalHosts > 2 then totalHosts - 2 else 0
  { networkAddress := networkAddress
    broadcastAddress := broadcastAddress
    firstValidHost := firstValidHost
    lastValidHost := lastValidHost
    totalHosts := totalHosts
    usableHosts := usableHosts
    cidr := cidr
    subnetMask := subnetMask
    binarySubnetMask := ipToBinary subnetMask
    binaryIpAddress := ipToBinary ip
    binaryNetworkAddress := ipToBinary networkAddress
    wildcardMask := calculateWildcardMask subnetMask
    subnetBits := cidr - (if cidr ≤ 8 then 0 else if cidr ≤ 16 then 8 else if cidr ≤ 24 then 16 else 24)
    hostBits := 32 - cidr }

/-- The `Subnet` interface of the source. -/
structure Subnet where
  id : Nat
  networkAddress : String
  broadcastAddress : String
  firstHost : String
  lastHost : String
  cidr : Nat
  usableHosts : Nat
  deriving DecidableEq

/-- Fuel-driven search for the least `k ≥ start` with `n ≤ 2 ^ k`. -/
def ceilLog2Aux (n : Nat) : Nat → Nat → Nat
  | 0, k => k
  | fuel + 1, k => if n ≤ 2 ^ k then k else ceilLog2Aux n fuel (k + 1)

/-- Models `Math.ceil(Math.log2(n))` for `n ≥ 1`: the least `k` with
`n ≤ 2 ^ k` (see `ceilLog2_eq_clog`).  At `n = 0` JavaScript yields
`-Infinity`, for which the partitioner's loop below runs zero times —
exactly what the value `0` produces here as well, since
`min 1 0 = 0`. -/
def ceilLog2 (n : Nat) : Nat := ceilLog2Aux n n 0

/-- `generateSubnets` from the source.  The `for` loop with condition
`i < actualSubnetCount && i < subnetCount` is rendered as a map over
`List.range (min actualSubnetCount subnetCount)`. -/
def generateSubnets (ip : String) (cidr : Nat) (subnetCount : Nat) : List Subnet :=
  let bitsNeeded := ceilLog2 subnetCount
  let newCidr := min (cidr + bitsNeeded) 30
  let subnetMask := cidrToSubnetMask cidr
  let networkAddress := calculateNetworkAddress ip subnetMask
  let networkInt := ipToInt networkAddress
  let subnetSize := 2 ^ (32 - newCidr)
  let actualSubnetCount := 2 ^ (newCidr - cidr)
  (List.range (min actualSubnetCount subnetCount)).map (fun i =>
    { id := i + 1
      networkAddress := intToIp (networkInt + i * subnetSize)
      broadcastAddress := intToIp (networkInt + i * subnetSize + subnetSize - 1)
      firstHost := intToIp (networkInt + i * subnetSize + 1)
      lastHost := intToIp (networkInt + i * subnetSize + subnetSize - 2)
      cidr := newCidr
      usableHosts := subnetSize - 2 })

/-! ### Helper lemmas about characters and digit strings -/

theorem toNat_digitChar {k : Nat} (h : k ≤ 9) : (digChar k).toNat = 48 + k := by
  unfold digChar
  rw [Nat.mod_eq_of_lt (by omega)]
  interval_cases k <;> decide

theorem isDig_digitChar {k : Nat} (h : k ≤ 9) : isDig (digChar k) = true := by
  unfold digChar
  rw [Nat.mod_eq_of_lt (by omega)]
  interval_cases k <;> decide

theorem digitChar_ne_dot (k : Nat) : digChar k ≠ '.' := by
  unfold digChar
  have hb : k % 10 < 10 := Nat.mod_lt _ (by norm_num)
  generalize k % 10 = m at hb ⊢
  interval_cases m <;> decide

theorem isDig_toNat {c : Char} (h : isDig c = true) : 48 ≤ c.toNat ∧ c.toNat ≤ 57 := by
  simpa [isDig] using h

theorem digitChar_toNat_sub {c : Char} (h : isDig c = true) :
    digChar (c.toNat - 48) = c := by
  obtain ⟨h1, h2⟩ := isDig_toNat h
  unfold digChar
  rw [Nat.mod_eq_of_lt (by omega), show 48 + (c.toNat - 48) = c.toNat from by omega,
    Char.ofNat_toNat]

theorem decChars_no_dot {n : Nat} : '.' ∉ decChars n := by
  unfold decChars
  split
  · simp only [List.mem_singleton]
    exact fun e => digitChar_ne_dot n e.symm
  · split
    · simp only [List.mem_cons, List.not_mem_nil, or_false]
      rintro (e | e) <;> exact digitChar_ne_dot _ e.symm
    · simp only [List.mem_cons, List.not_mem_nil, or_false]
      rintro (e | e | e) <;> exact digitChar_ne_dot _ e.symm

theorem parseDec_decChars {n : Nat} (h : n < 1000) : parseDec (decChars n) = n := by
  unfold decChars parseDec
  split
  · rename_i h10
    have h9 : n ≤ 9 := by omega
    simp [List.takeWhile_cons, isDig_digitChar h9, toNat_digitChar h9]
  · split
    · rename_i h10 h100
      have k1 : n / 10 ≤ 9 := by omega
      have k2 : n % 10 ≤ 9 := by omega
      simp [List.takeWhile_cons, isDig_digitChar k1, isDig_digitChar k2,
        toNat_digitChar k1, toNat_digitChar k2, List.foldl]
      omega
    · rename_i h10 h100
      have k1 : n / 100 ≤ 9 := by omega
      have k2 : n / 10 % 10 ≤ 9 := by omega
      have k3 : n % 10 ≤ 9 := by omega
      simp [List.takeWhile_cons, isDig_digitChar k1, isDig_digitChar k2, isDig_digitChar k3,
        toNat_digitChar k1, toNat_digitChar k2, toNat_digitChar k3, List.foldl]
      omega

/-! ### Helper lemmas about `splitDot` -/

theorem splitDot_ne_nil (cs : List Char) : splitDot cs ≠ [] := by
  induction cs with
  | nil => simp [splitDot]
  | cons c cs ih =>
    simp only [splitDot]
    split
    · simp
    · cases h : splitDot cs with
      | nil => simp
      | cons p ps => simp [h]

theorem splitDot_no_dot {l : List Char} (h : '.' ∉ l) : splitDot l = [l] := by
  induction l with
  | nil => rfl
  | cons c cs ih =>
    have hc : ¬(c = '.') := fun e => h (e ▸ List.mem_cons_self c cs)
    have hcs : '.' ∉ cs := fun m => h (List.mem_cons_of_mem _ m)
    simp [splitDot, hc, ih hcs]

theorem splitDot_append {l rest : List Char} (h : '.' ∉ l) :
    splitDot (l ++ '.' :: rest) = l :: splitDot rest := by
  induction l with
  | nil => simp [splitDot]
  | cons c cs ih =>
    have hc : ¬(c = '.') := fun e => h (e ▸ List.mem_cons_self c cs)
    have hcs : '.' ∉ cs := fun m => h (List.mem_cons_of_mem _ m)
    simp only [List.cons_append, splitDot, if_neg hc, List.append_eq, ih hcs]

theorem joinDot_splitDot (cs : List Char) : joinDot (splitDot cs) = cs := by
  induction cs with
  | nil => rfl
  | cons c cs ih =>
    by_cases hc : c = '.'
    · subst hc
      have e : splitDot ('.' :: cs) = [] :: splitDot cs := by
        simp [splitDot]
      rw [e]
      cases h : splitDot cs with
      | nil => exact absurd h (splitDot_ne_nil cs)
      | cons p ps =>
        have step : joinDot ([] :: p :: ps) = '.' :: joinDot (p :: ps) := rfl
        rw [step, ← h, ih]
    · have e : splitDot (c :: cs) =
          match splitDot cs with
          | [] => [[c]]
          | p :: ps => (c :: p) :: ps := by
        simp [splitDot, hc]
      rw [e]
      cases h : splitDot cs with
      | nil => exact absurd h (splitDot_ne_nil cs)
      | cons p ps =>
        have step : joinDot ((c :: p) :: ps) = c :: joinDot (p :: ps) := by
          cases ps <;> rfl
        rw [step, ← h, ih]

/-! ### Helper lemmas about bit packing -/

theorem and255_eq_mod (x : Nat) : x &&& 255 = x % 256 := by
  have h : (255 : Nat) = 2 ^ 8 - 1 := by norm_num
  rw [h, Nat.and_pow_two_sub_one_eq_mod]

theorem pack_octets {a b c d : Nat} (ha : a < 256) (hb : b < 256) (hc : c < 256)
    (hd : d < 256) :
    ((a <<< 24) % 2 ^ 32) ||| ((b <<< 16) % 2 ^ 32) ||| ((c <<< 8) % 2 ^ 32) ||| (d % 2 ^ 32)
      = a * 2 ^ 24 + b * 2 ^ 16 + c * 2 ^ 8 + d := by
  have p8 : (2 : Nat) ^ 8 = 256 := by norm_num
  have p16 : (2 : Nat) ^ 16 = 65536 := by norm_num
  have p24 : (2 : Nat) ^ 24 = 16777216 := by norm_num
  have p32 : (2 : Nat) ^ 32 = 4294967296 := by norm_num
  rw [Nat.shiftLeft_eq, Nat.shiftLeft_eq, Nat.shiftLeft_eq]
  rw [Nat.mod_eq_of_lt (by rw [p24, p32]; omega),
      Nat.mod_eq_of_lt (by rw [p16, p32]; omega),
      Nat.mod_eq_of_lt (by rw [p8, p32]; omega),
      Nat.mod_eq_of_lt (by rw [p32]; omega)]
  have s1 : a * 2 ^ 24 ||| b * 2 ^ 16 = a * 2 ^ 24 + b * 2 ^ 16 := by
    have e : a * 2 ^ 24 = 2 ^ 24 * a := Nat.mul_comm _ _
    rw [e, ← Nat.mul_add_lt_is_or (by rw [p16, p24]; omega) a]
  have s2 : a * 2 ^ 24 + b * 2 ^ 16 ||| c * 2 ^ 8 = a * 2 ^ 24 + b * 2 ^ 16 + c * 2 ^ 8 := by
    have e : a * 2 ^ 24 + b * 2 ^ 16 = 2 ^ 16 * (a * 2 ^ 8 + b) := by ring
    rw [e, ← Nat.mul_add_lt_is_or (by rw [p8, p16]; omega) (a * 2 ^ 8 + b)]
  have s3 : a * 2 ^ 24 + b * 2 ^ 16 + c * 2 ^ 8 ||| d
      = a * 2 ^ 24 + b * 2 ^ 16 + c * 2 ^ 8 + d := by
    have e : a * 2 ^ 24 + b * 2 ^ 16 + c * 2 ^ 8 = 2 ^ 8 * (a * 2 ^ 16 + b * 2 ^ 8 + c) := by
      ring
    rw [e, ← Nat.mul_add_lt_is_or (by rw [p8]; omega) (a * 2 ^ 16 + b * 2 ^ 8 + c)]
  rw [s1, s2, s3]

theorem ipToInt_lt (ip : String) : ipToInt ip < 2 ^ 32 := by
  unfold ipToInt
  apply Nat.or_lt_two_pow
  apply Nat.or_lt_two_pow
  apply Nat.or_lt_two_pow
  all_goals exact Nat.mod_lt _ (by norm_num)

theorem data_mk (l : List Char) : (String.mk l).data = l := rfl

theorem intToIp_data (v : Nat) :
    (intToIp v).data
      = decChars (((v % 2 ^ 32) >>> 24) &&& 255) ++ '.' ::
        (decChars (((v % 2 ^ 32) >>> 16) &&& 255) ++ '.' ::
         (decChars (((v % 2 ^ 32) >>> 8) &&& 255) ++ '.' ::
          decChars ((v % 2 ^ 32) &&& 255))) := by
  have hdot : ("." : String).data = ['.'] := rfl
  simp [intToIp, joinWith, data_mk, hdot]

/-- Round trip at the integer level: `ipToInt (intToIp v)` recovers the low
32 bits of `v`. -/
theorem ipToInt_intToIp (v : Nat) : ipToInt (intToIp v) = v % 2 ^ 32 := by
  have hilt : v % 2 ^ 32 < 2 ^ 32 := Nat.mod_lt _ (by norm_num)
  have ha : ((v % 2 ^ 32) >>> 24) &&& 255 ≤ 255 := Nat.and_le_right
  have hb : ((v % 2 ^ 32) >>> 16) &&& 255 ≤ 255 := Nat.and_le_right
  have hc : ((v % 2 ^ 32) >>> 8) &&& 255 ≤ 255 := Nat.and_le_right
  have hd : (v % 2 ^ 32) &&& 255 ≤ 255 := Nat.and_le_right
  unfold ipToInt
  rw [intToIp_data,
    splitDot_append decChars_no_dot, splitDot_append decChars_no_dot,
    splitDot_append decChars_no_dot, splitDot_no_dot decChars_no_dot]
  simp only [List.getD_cons_zero, List.getD_cons_succ]
  rw [parseDec_decChars (by omega), parseDec_decChars (by omega),
    parseDec_decChars (by omega), parseDec_decChars (by omega),
    pack_octets (by omega) (by omega) (by omega) (by omega)]
  have e1 : ((v % 2 ^ 32) >>> 24) &&& 255 = v % 2 ^ 32 / 16777216 % 256 := by
    rw [Nat.shiftRight_eq_div_pow, and255_eq_mod]
  have e2 : ((v % 2 ^ 32) >>> 16) &&& 255 = v % 2 ^ 32 / 65536 % 256 := by
    rw [Nat.shiftRight_eq_div_pow, and255_eq_mod]
  have e3 : ((v % 2 ^ 32) >>> 8) &&& 255 = v % 2 ^ 32 / 256 % 256 := by
    rw [Nat.shiftRight_eq_div_pow, and255_eq_mod]
  have e4 : (v % 2 ^ 32) &&& 255 = v % 2 ^ 32 % 256 := and255_eq_mod _
  rw [e1, e2, e3, e4]
  simp only [show (2 : Nat) ^ 24 = 16777216 from by norm_num,
    show (2 : Nat) ^ 16 = 65536 from by norm_num,
    show (2 : Nat) ^ 8 = 256 from by norm_num,
    show (2 : Nat) ^ 32 = 4294967296 from by norm_num] at hilt ⊢
  omega

/-! ### The subnet mask as a number -/

theorem ipToInt_cidrToSubnetMask {cidr : Nat} (h : cidr ≤ 31) :
    ipToInt (cidrToSubnetMask cidr) = 2 ^ 32 - 2 ^ (32 - cidr) := by
  interval_cases cidr <;> decide

theorem ipToInt_calculateNetworkAddress (ip mask : String) :
    ipToInt (calculateNetworkAddress ip mask) = ipToInt ip &&& ipToInt mask := by
  unfold calculateNetworkAddress
  rw [ipToInt_intToIp]
  exact Nat.mod_eq_of_lt (lt_of_le_of_lt Nat.and_le_right (ipToInt_lt mask))

/-! ### `ceilLog2` computes the ceiling of the base-2 logarithm -/

theorem ceilLog2Aux_spec (n : Nat) :
    ∀ fuel k : Nat, n ≤ 2 ^ (k + fuel) →
      n ≤ 2 ^ ceilLog2Aux n fuel k ∧
        ∀ j, k ≤ j → n ≤ 2 ^ j → ceilLog2Aux n fuel k ≤ j := by
  intro fuel
  induction fuel with
  | zero =>
    intro k hk
    constructor
    · exact hk
    · intro j hj _
      simpa [ceilLog2Aux] using hj
  | succ fuel ih =>
    intro k hk
    by_cases hnk : n ≤ 2 ^ k
    · constructor
      · simp only [ceilLog2Aux, if_pos hnk]
        exact hnk
      · intro j hj _
        simpa [ceilLog2Aux, hnk] using hj
    · have step : ceilLog2Aux n (fuel + 1) k = ceilLog2Aux n fuel (k + 1) := by
        simp [ceilLog2Aux, hnk]
      have hk' : n ≤ 2 ^ (k + 1 + fuel) := by
        have : k + 1 + fuel = k + (fuel + 1) := by omega
        rw [this]
        exact hk
      obtain ⟨h1, h2⟩ := ih (k + 1) hk'
      refine ⟨by rwa [step], ?_⟩
      intro j hj hnj
      rw [step]
      apply h2 j ?_ hnj
      rcases Nat.eq_or_lt_of_le hj with e | l
      · exact absurd (e ▸ hnj) hnk
      · exact l

theorem ceilLog2_eq_clog (n : Nat) : ceilLog2 n = Nat.clog 2 n := by
  have hn : n ≤ 2 ^ (0 + n) := by
    simpa using Nat.le_of_lt (Nat.lt_two_pow n)
  obtain ⟨h1, h2⟩ := ceilLog2Aux_spec n n 0 hn
  apply Nat.le_antisymm
  · exact h2 (Nat.clog 2 n) (Nat.zero_le _) (Nat.le_pow_clog (by norm_num) n)
  · exact (Nat.le_pow_iff_clog_le (by norm_num)).mp h1

/-! ### Canonical octet segments -/

theorem char_eq_of_toNat {c d : Char} (h : c.toNat = d.toNat) : c = d := by
  rw [← Char.ofNat_toNat c, ← Char.ofNat_toNat d, h]

theorem parseDec_one {c1 : Char} (h1 : isDig c1 = true) :
    parseDec [c1] = c1.toNat - 48 := by
  simp [parseDec, List.takeWhile_cons, h1]

theorem parseDec_two {c1 c2 : Char} (h1 : isDig c1 = true) (h2 : isDig c2 = true) :
    parseDec [c1, c2] = (c1.toNat - 48) * 10 + (c2.toNat - 48) := by
  simp [parseDec, List.takeWhile_cons, h1, h2]

theorem parseDec_three {c1 c2 c3 : Char} (h1 : isDig c1 = true) (h2 : isDig c2 = true)
    (h3 : isDig c3 = true) :
    parseDec [c1, c2, c3]
      = ((c1.toNat - 48) * 10 + (c2.toNat - 48)) * 10 + (c3.toNat - 48) := by
  simp [parseDec, List.takeWhile_cons, h1, h2, h3]

theorem decChars_eq_one {v : Nat} (h : v ≤ 9) : decChars v = [digChar v] := by
  unfold decChars
  rw [if_pos (by omega)]

theorem decChars_eq_two {v : Nat} (h1 : 10 ≤ v) (h2 : v ≤ 99) :
    decChars v = [digChar (v / 10), digChar (v % 10)] := by
  unfold decChars
  rw [if_neg (by omega), if_pos (by omega)]

theorem decChars_eq_three {v : Nat} (h1 : 100 ≤ v) (h2 : v ≤ 999) :
    decChars v = [digChar (v / 100), digChar (v / 10 % 10), digChar (v % 10)] := by
  unfold decChars
  rw [if_neg (by omega), if_neg (by omega)]

/-- Every segment accepted by the octet alternation parses to at most 255,
and — when it carries no superfluous leading zero — re-rendering the value
gives back exactly the same characters. -/
theorem octet_facts {p : List Char} (h : octetMatches p = true) :
    parseDec p ≤ 255 ∧ (noLeadingZeros p = true → decChars (parseDec p) = p) := by
  rcases p with _ | ⟨c1, _ | ⟨c2, _ | ⟨c3, _ | ⟨c4, rest⟩⟩⟩⟩
  · rw [show octetMatches [] = false from rfl] at h
    exact absurd h (by decide)
  · have h1 : isDig c1 = true := by simpa [octetMatches] using h
    obtain ⟨b1, b2⟩ := isDig_toNat h1
    rw [parseDec_one h1]
    refine ⟨by omega, fun _ => ?_⟩
    rw [decChars_eq_one (by omega), digitChar_toNat_sub h1]
  · have hh : isDig c1 = true ∧ isDig c2 = true := by simpa [octetMatches] using h
    obtain ⟨h1, h2⟩ := hh
    obtain ⟨b1, b2⟩ := isDig_toNat h1
    obtain ⟨b3, b4⟩ := isDig_toNat h2
    rw [parseDec_two h1 h2]
    refine ⟨by omega, fun hz => ?_⟩
    have hc1 : c1 ≠ '0' := by
      intro e
      subst e
      simp [noLeadingZeros] at hz
    have hb : c1.toNat ≠ 48 := fun e => hc1 (char_eq_of_toNat e)
    rw [decChars_eq_two (by omega) (by omega)]
    have d1 : ((c1.toNat - 48) * 10 + (c2.toNat - 48)) / 10 = c1.toNat - 48 := by omega
    have d2 : ((c1.toNat - 48) * 10 + (c2.toNat - 48)) % 10 = c2.toNat - 48 := by omega
    rw [d1, d2, digitChar_toNat_sub h1, digitChar_toNat_sub h2]
  · have hh := h
    simp only [octetMatches, Bool.or_eq_true, Bool.and_eq_true, decide_eq_true_eq] at hh
    rcases hh with (⟨⟨⟨e1, e2⟩, b5⟩, b6⟩ | ⟨⟨⟨e1, b3⟩, b4⟩, h3⟩) | ⟨⟨e1, h2⟩, h3⟩
    · subst e1
      subst e2
      have h3 : isDig c3 = true := by
        simp only [isDig, Bool.and_eq_true, decide_eq_true_eq]
        omega
      obtain ⟨b7, b8⟩ := isDig_toNat h3
      have v_eq : parseDec ['2', '5', c3] = 250 + (c3.toNat - 48) := by
        rw [parseDec_three (by decide) (by decide) h3]
        simp only [show ('2' : Char).toNat = 50 from rfl, show ('5' : Char).toNat = 53 from rfl]
      rw [v_eq]
      refine ⟨by omega, fun _ => ?_⟩
      rw [decChars_eq_three (by omega) (by omega)]
      have g1 : (250 + (c3.toNat - 48)) / 100 = 2 := by omega
      have g2 : (250 + (c3.toNat - 48)) / 10 % 10 = 5 := by omega
      have g3 : (250 + (c3.toNat - 48)) % 10 = c3.toNat - 48 := by omega
      rw [g1, g2, g3, digitChar_toNat_sub h3,
        show digChar 2 = '2' from rfl, show digChar 5 = '5' from rfl]
    · subst e1
      have h2 : isDig c2 = true := by
        simp only [isDig, Bool.and_eq_true, decide_eq_true_eq]
        omega
      obtain ⟨b7, b8⟩ := isDig_toNat h3
      have v_eq : parseDec ['2', c2, c3]
          = 200 + (c2.toNat - 48) * 10 + (c3.toNat - 48) := by
        rw [parseDec_three (by decide) h2 h3]
        simp only [show ('2' : Char).toNat = 50 from rfl]
        omega
      rw [v_eq]
      refine ⟨by omega, fun _ => ?_⟩
      rw [decChars_eq_three (by omega) (by omega)]
      have g1 : (200 + (c2.toNat - 48) * 10 + (c3.toNat - 48)) / 100 = 2 := by omega
      have g2 : (200 + (c2.toNat - 48) * 10 + (c3.toNat - 48)) / 10 % 10 = c2.toNat - 48 := by
        omega
      have g3 : (200 + (c2.toNat - 48) * 10 + (c3.toNat - 48)) % 10 = c3.toNat - 48 := by omega
      rw [g1, g2, g3, digitChar_toNat_sub h2, digitChar_toNat_sub h3,
        show digChar 2 = '2' from rfl]
    · obtain ⟨b5, b6⟩ := isDig_toNat h2
      obtain ⟨b7, b8⟩ := isDig_toNat h3
      have h1 : isDig c1 = true := by
        rcases e1 with e | e <;> subst e <;> decide
      obtain ⟨b1, b2⟩ := isDig_toNat h1
      rw [parseDec_three h1 h2 h3]
      have k1le : c1.toNat - 48 ≤ 1 := by
        rcases e1 with e | e <;> subst e <;> decide
      refine ⟨by omega, fun hz => ?_⟩
      have hc1 : c1 = '1' := by
        rcases e1 with e | e
        · subst e
          simp [noLeadingZeros] at hz
        · exact e
      subst hc1
      have v_eq : ((('1' : Char).toNat - 48) * 10 + (c2.toNat - 48)) * 10 + (c3.toNat - 48)
          = 100 + (c2.toNat - 48) * 10 + (c3.toNat - 48) := by
        simp only [show ('1' : Char).toNat = 49 from rfl]
        omega
      rw [v_eq]
      rw [decChars_eq_three (by omega) (by omega)]
      have g1 : (100 + (c2.toNat - 48) * 10 + (c3.toNat - 48)) / 100 = 1 := by omega
      have g2 : (100 + (c2.toNat - 48) * 10 + (c3.toNat - 48)) / 10 % 10 = c2.toNat - 48 := by
        omega
      have g3 : (100 + (c2.toNat - 48) * 10 + (c3.toNat - 48)) % 10 = c3.toNat - 48 := by omega
      rw [g1, g2, g3, digitChar_toNat_sub h2, digitChar_toNat_sub h3,
        show digChar 1 = '1' from rfl]
  · rw [show octetMatches (c1 :: c2 :: c3 :: c4 :: rest) = false from rfl] at h
    exact absurd h (by decide)

theorem isValidIP_parts {A : String} (h : isValidIP A = true) :
    ∃ p1 p2 p3 p4, splitDot A.data = [p1, p2, p3, p4] ∧
      octetMatches p1 = true ∧ octetMatches p2 = true ∧
      octetMatches p3 = true ∧ octetMatches p4 = true := by
  unfold isValidIP at h
  rcases e : splitDot A.data with _ | ⟨p1, _ | ⟨p2, _ | ⟨p3, _ | ⟨p4, _ | ⟨p5, rest⟩⟩⟩⟩⟩ <;>
      rw [e] at h
  · exact Bool.noConfusion h
  · exact Bool.noConfusion h
  · exact Bool.noConfusion h
  · exact Bool.noConfusion h
  · change (octetMatches p1 && octetMatches p2 && octetMatches p3 && octetMatches p4) = true at h
    simp only [Bool.and_eq_true] at h
    exact ⟨p1, p2, p3, p4, rfl, h.1.1.1, h.1.1.2, h.1.2, h.2⟩
  · exact Bool.noConfusion h

/-- A valid address whose octets are canonically spelled survives the
string-level round trip. -/
theorem intToIp_ipToInt_of_canonical {A : String} (hv : isValidIP A = true)
    (hz : ∀ p ∈ splitDot A.data, noLeadingZeros p = true) :
    intToIp (ipToInt A) = A := by
  obtain ⟨p1, p2, p3, p4, he, h1, h2, h3, h4⟩ := isValidIP_parts hv
  have z1 := hz p1 (by rw [he]; simp)
  have z2 := hz p2 (by rw [he]; simp)
  have z3 := hz p3 (by rw [he]; simp)
  have z4 := hz p4 (by rw [he]; simp)
  obtain ⟨l1, c1⟩ := octet_facts h1
  obtain ⟨l2, c2⟩ := octet_facts h2
  obtain ⟨l3, c3⟩ := octet_facts h3
  obtain ⟨l4, c4⟩ := octet_facts h4
  have hval : ipToInt A
      = parseDec p1 * 2 ^ 24 + parseDec p2 * 2 ^ 16 + parseDec p3 * 2 ^ 8 + parseDec p4 := by
    unfold ipToInt
    rw [he]
    simp only [List.getD_cons_zero, List.getD_cons_succ]
    exact pack_octets (by omega) (by omega) (by omega) (by omega)
  have hnum : (2 : Nat) ^ 24 = 16777216 ∧ (2 : Nat) ^ 16 = 65536 ∧ (2 : Nat) ^ 8 = 256 ∧
      (2 : Nat) ^ 32 = 4294967296 := by norm_num
  obtain ⟨p24, p16, p8, p32⟩ := hnum
  have hVlt : parseDec p1 * 2 ^ 24 + parseDec p2 * 2 ^ 16 + parseDec p3 * 2 ^ 8 + parseDec p4
      < 2 ^ 32 := by
    rw [p24, p16, p8, p32]
    omega
  have hVm : (parseDec p1 * 2 ^ 24 + parseDec p2 * 2 ^ 16 + parseDec p3 * 2 ^ 8 + parseDec p4)
      % 2 ^ 32
      = parseDec p1 * 2 ^ 24 + parseDec p2 * 2 ^ 16 + parseDec p3 * 2 ^ 8 + parseDec p4 :=
    Nat.mod_eq_of_lt hVlt
  have x1 : (((parseDec p1 * 2 ^ 24 + parseDec p2 * 2 ^ 16 + parseDec p3 * 2 ^ 8 + parseDec p4)
      % 2 ^ 32) >>> 24) &&& 255 = parseDec p1 := by
    rw [hVm, Nat.shiftRight_eq_div_pow, and255_eq_mod, p24, p16, p8]
    omega
  have x2 : (((parseDec p1 * 2 ^ 24 + parseDec p2 * 2 ^ 16 + parseDec p3 * 2 ^ 8 + parseDec p4)
      % 2 ^ 32) >>> 16) &&& 255 = parseDec p2 := by
    rw [hVm, Nat.shiftRight_eq_div_pow, and255_eq_mod, p24, p16, p8]
    omega
  have x3 : (((parseDec p1 * 2 ^ 24 + parseDec p2 * 2 ^ 16 + parseDec p3 * 2 ^ 8 + parseDec p4)
      % 2 ^ 32) >>> 8) &&& 255 = parseDec p3 := by
    rw [hVm, Nat.shiftRight_eq_div_pow, and255_eq_mod, p24, p16, p8]
    omega
  have x4 : ((parseDec p1 * 2 ^ 24 + parseDec p2 * 2 ^ 16 + parseDec p3 * 2 ^ 8 + parseDec p4)
      % 2 ^ 32) &&& 255 = parseDec p4 := by
    rw [hVm, and255_eq_mod, p24, p16, p8]
    omega
  apply String.ext
  rw [hval, intToIp_data, x1, x2, x3, x4, c1 z1, c2 z2, c3 z3, c4 z4]
  conv_rhs => rw [← joinDot_splitDot A.data, he]
  rfl

theorem ipToInt_intToIp_small {v : Nat} (h : v < 2 ^ 32) : ipToInt (intToIp v) = v := by
  rw [ipToInt_intToIp, Nat.mod_eq_of_lt h]

/-! ### Host-range behaviour at prefix lengths 31 and 32 -/

theorem hosts_31 (ip : String) :
    ipToInt (calculateIPInfo ip 31).firstValidHost = (ipToInt ip &&& 4294967294) + 1 ∧
    ipToInt (calculateIPInfo ip 31).lastValidHost = ipToInt ip &&& 4294967294 := by
  have hm : ipToInt (cidrToSubnetMask 31) = 4294967294 := by decide
  have hle : ipToInt ip &&& 4294967294 ≤ 4294967294 := Nat.and_le_right
  have heven : (ipToInt ip &&& 4294967294) % 2 = 0 := by
    have t : (ipToInt ip &&& 4294967294).testBit 0 = false := by
      rw [Nat.testBit_and]
      simp [Nat.testBit_zero]
    rw [Nat.testBit_zero] at t
    simp only [decide_eq_false_iff_not] at t
    omega
  have hnot : jsNot32 4294967294 = 1 := by decide
  have hor : (ipToInt ip &&& 4294967294) ||| 1 = (ipToInt ip &&& 4294967294) + 1 := by
    have e : ipToInt ip &&& 4294967294 = 2 ^ 1 * ((ipToInt ip &&& 4294967294) / 2) := by
      omega
    rw [e, ← Nat.mul_add_lt_is_or (by norm_num) ((ipToInt ip &&& 4294967294) / 2)]
  have hnet : ipToInt (intToIp (ipToInt ip &&& 4294967294)) = ipToInt ip &&& 4294967294 :=
    ipToInt_intToIp_small (by omega)
  have hbr : ipToInt (intToIp ((ipToInt ip &&& 4294967294) + 1))
      = (ipToInt ip &&& 4294967294) + 1 :=
    ipToInt_intToIp_small (by omega)
  constructor
  · show ipToInt (calculateFirstHost
        (calculateNetworkAddress ip (cidrToSubnetMask 31))) = _
    simp only [calculateFirstHost, calculateNetworkAddress, hm, hnet, hbr]
  · show ipToInt (calculateLastHost
        (calculateBroadcastAddress ip (cidrToSubnetMask 31))) = _
    simp only [calculateLastHost, calculateBroadcastAddress, hm, hnot, hor, hbr,
      Nat.add_sub_cancel, hnet]

theorem hosts_32 (ip : String) :
    (calculateIPInfo ip 32).networkAddress = "0.0.0.0" ∧
    (calculateIPInfo ip 32).broadcastAddress = "255.255.255.255" ∧
    (calculateIPInfo ip 32).firstValidHost = "0.0.0.1" ∧
    (calculateIPInfo ip 32).lastValidHost = "255.255.255.254" := by
  have hm : ipToInt (cidrToSubnetMask 32) = 0 := by decide
  refine ⟨?_, ?_, ?_, ?_⟩
  · show calculateNetworkAddress ip (cidrToSubnetMask 32) = _
    simp only [calculateNetworkAddress, hm, Nat.and_zero]
    decide
  · show calculateBroadcastAddress ip (cidrToSubnetMask 32) = _
    simp only [calculateBroadcastAddress, hm, Nat.and_zero]
    decide
  · show calculateFirstHost (calculateNetworkAddress ip (cidrToSubnetMask 32)) = _
    simp only [calculateFirstHost, calculateNetworkAddress, hm, Nat.and_zero]
    decide
  · show calculateLastHost (calculateBroadcastAddress ip (cidrToSubnetMask 32)) = _
    simp only [calculateLastHost, calculateBroadcastAddress, hm, Nat.and_zero]
    decide

/-! ### Shape of the subnet list -/

theorem generateSubnets_len (ip : String) (cidr count : Nat) :
    (generateSubnets ip cidr count).length
      = min (2 ^ (min (cidr + ceilLog2 count) 30 - cidr)) count := by
  simp [generateSubnets]

theorem generateSubnets_netAddr (ip : String) (cidr count : Nat) (j : Nat)
    (hj : j < (generateSubnets ip cidr count).length) :
    ((generateSubnets ip cidr count).get ⟨j, hj⟩).networkAddress
      = intToIp ((ipToInt ip &&& ipToInt (cidrToSubnetMask cidr))
          + j * 2 ^ (32 - min (cidr + ceilLog2 count) 30)) := by
  simp [generateSubnets, ipToInt_calculateNetworkAddress]

theorem generateSubnets_brAddr (ip : String) (cidr count : Nat) (j : Nat)
    (hj : j < (generateSubnets ip cidr count).length) :
    ((generateSubnets ip cidr count).get ⟨j, hj⟩).broadcastAddress
      = intToIp ((ipToInt ip &&& ipToInt (cidrToSubnetMask cidr))
          + j * 2 ^ (32 - min (cidr + ceilLog2 count) 30)
          + 2 ^ (32 - min (cidr + ceilLog2 count) 30) - 1) := by
  simp [generateSubnets, ipToInt_calculateNetworkAddress]

theorem generateSubnets_cidr_eq (ip : String) (cidr count : Nat) {s : Subnet}
    (hs : s ∈ generateSubnets ip cidr count) :
    s.cidr = min (cidr + ceilLog2 count) 30 := by
  simp only [generateSubnets, List.mem_map, List.mem_range] at hs
  obtain ⟨j, hj, rfl⟩ := hs
  rfl

/-- Core of the partition invariant: inside the generated batch, the address
range never wraps, so broadcast + 1 of one subnet is the network address of
the next. -/
theorem partition_core (ip : String) (cidr count : Nat) (hc : cidr ≤ 30) (i : Nat)
    (h : i + 1 < (generateSubnets ip cidr count).length) :
    ipToInt ((generateSubnets ip cidr count).get
        ⟨i, Nat.lt_of_succ_lt h⟩).broadcastAddress + 1
      = ipToInt ((generateSubnets ip cidr count).get ⟨i + 1, h⟩).networkAddress := by
  have hN1 : cidr ≤ min (cidr + ceilLog2 count) 30 :=
    le_min (Nat.le_add_right _ _) hc
  have hN2 : min (cidr + ceilLog2 count) 30 ≤ 30 := Nat.min_le_right _ _
  have hmask : ipToInt (cidrToSubnetMask cidr) = 2 ^ 32 - 2 ^ (32 - cidr) :=
    ipToInt_cidrToSubnetMask (by omega)
  have hnet_le : ipToInt ip &&& ipToInt (cidrToSubnetMask cidr)
      ≤ 2 ^ 32 - 2 ^ (32 - cidr) := by
    rw [← hmask]
    exact Nat.and_le_right
  have hiA : i + 1 < 2 ^ (min (cidr + ceilLog2 count) 30 - cidr) := by
    rw [generateSubnets_len] at h
    omega
  have hAS : 2 ^ (min (cidr + ceilLog2 count) 30 - cidr)
        * 2 ^ (32 - min (cidr + ceilLog2 count) 30)
      = 2 ^ (32 - cidr) := by
    rw [← Nat.pow_add]
    congr 1
    omega
  have hmul : (i + 1) * 2 ^ (32 - min (cidr + ceilLog2 count) 30)
      ≤ 2 ^ (32 - cidr) - 2 ^ (32 - min (cidr + ceilLog2 count) 30) := by
    have h1 : i + 1 ≤ 2 ^ (min (cidr + ceilLog2 count) 30 - cidr) - 1 := by omega
    have h2 := Nat.mul_le_mul_right (2 ^ (32 - min (cidr + ceilLog2 count) 30)) h1
    have h3 : (2 ^ (min (cidr + ceilLog2 count) 30 - cidr) - 1)
          * 2 ^ (32 - min (cidr + ceilLog2 count) 30)
        = 2 ^ (32 - cidr) - 2 ^ (32 - min (cidr + ceilLog2 count) 30) := by
      rw [Nat.sub_mul, one_mul, hAS]
    exact h3 ▸ h2
  have hSpos : 1 ≤ 2 ^ (32 - min (cidr + ceilLog2 count) 30) := Nat.one_le_two_pow
  have hP_le : 2 ^ (32 - cidr) ≤ 2 ^ 32 := Nat.pow_le_pow_right (by norm_num) (by omega)
  have hS_le_P : 2 ^ (32 - min (cidr + ceilLog2 count) 30) ≤ 2 ^ (32 - cidr) :=
    Nat.pow_le_pow_right (by norm_num) (by omega)
  have hadd : (ipToInt ip &&& ipToInt (cidrToSubnetMask cidr))
        + (i + 1) * 2 ^ (32 - min (cidr + ceilLog2 count) 30)
      ≤ (2 ^ 32 - 2 ^ (32 - cidr))
        + (2 ^ (32 - cidr) - 2 ^ (32 - min (cidr + ceilLog2 count) 30)) :=
    Nat.add_le_add hnet_le hmul
  have heq : (2 ^ 32 - 2 ^ (32 - cidr))
        + (2 ^ (32 - cidr) - 2 ^ (32 - min (cidr + ceilLog2 count) 30))
      = 2 ^ 32 - 2 ^ (32 - min (cidr + ceilLog2 count) 30) := by
    omega
  have hlt2 : (ipToInt ip &&& ipToInt (cidrToSubnetMask cidr))
      + (i + 1) * 2 ^ (32 - min (cidr + ceilLog2 count) 30) < 2 ^ 32 :=
    lt_of_le_of_lt (heq ▸ hadd) (by omega)
  have hexp : (i + 1) * 2 ^ (32 - min (cidr + ceilLog2 count) 30)
      = i * 2 ^ (32 - min (cidr + ceilLog2 count) 30)
        + 2 ^ (32 - min (cidr + ceilLog2 count) 30) := by
    ring
  rw [hexp, ← Nat.add_assoc] at hlt2
  have hge1 : 1 ≤ (ipToInt ip &&& ipToInt (cidrToSubnetMask cidr))
      + i * 2 ^ (32 - min (cidr + ceilLog2 count) 30)
      + 2 ^ (32 - min (cidr + ceilLog2 count) 30) :=
    le_trans hSpos (Nat.le_add_left _ _)
  rw [generateSubnets_brAddr, generateSubnets_netAddr, hexp, ← Nat.add_assoc,
    ipToInt_intToIp_small (Nat.lt_of_le_of_lt (Nat.sub_le _ _) hlt2),
    ipToInt_intToIp_small hlt2, Nat.sub_add_cancel hge1]

/-! ### Claim theorems -/

/-- Claim C1: the spec says converting a prefix to a mask and back is the
identity on all of [0, 32], with prefix 32 giving the all-one mask.  The
code satisfies the round trip only on [0, 31]: for prefix 32 the
JavaScript shift `0xffffffff >>> 32` uses shift count 32 % 32 = 0, so
`cidrToSubnetMask 32` yields the all-zero mask "0.0.0.0" and the round
trip returns 0, not 32.  This theorem evaluates the code at the failing
input and proves the round trip on [0, 31]. -/
theorem mask_roundtrip_breaks_at_32 :
    (∀ P : Fin 32, subnetMaskToCidr (cidrToSubnetMask P.val) = P.val) ∧
    cidrToSubnetMask 0 = "0.0.0.0" ∧
    cidrToSubnetMask 32 = "0.0.0.0" ∧
    subnetMaskToCidr (cidrToSubnetMask 32) = 0 := by
  decide

/-- Claim C2: the spec says `calculateIPInfo "10.0.0.5" 32` has network and
broadcast address both "10.0.0.5".  Because `cidrToSubnetMask 32` is
"0.0.0.0" (the shift-count wrap bug), the code instead returns network
"0.0.0.0" and broadcast "255.255.255.255"; the host counts do match the
spec (totalHosts 1, usableHosts 0).  This theorem evaluates the code at
the failing input. -/
theorem calculateIPInfo_32_diverges :
    (calculateIPInfo "10.0.0.5" 32).networkAddress = "0.0.0.0" ∧
    (calculateIPInfo "10.0.0.5" 32).broadcastAddress = "255.255.255.255" ∧
    (calculateIPInfo "10.0.0.5" 32).totalHosts = 1 ∧
    (calculateIPInfo "10.0.0.5" 32).usableHosts = 0 ∧
    (calculateIPInfo "10.0.0.5" 32).subnetMask = "0.0.0.0" := by
  decide

/-- Claim C3 (counterexample): at the valid address "10.0.0.5" with prefix
32 the engine reports firstValidHost 0.0.0.1 and lastValidHost
255.255.255.254, so firstHost is numerically smaller than lastHost —
refuting the claim that firstHost > lastHost for every valid address at
both prefixes 31 and 32. -/
theorem slash32_first_lt_last :
    isValidIP "10.0.0.5" = true ∧
    ipToInt (calculateIPInfo "10.0.0.5" 32).firstValidHost
      < ipToInt (calculateIPInfo "10.0.0.5" 32).lastValidHost := by
  decide

/-- Claim C3 (amended): the engine never rejects a /31 or /32 request (it
is a total function).  At prefix 31 the result indeed has
firstValidHost > lastValidHost numerically; at prefix 32 the shift-count
wrap makes the mask all-zero, so every address yields firstValidHost
"0.0.0.1" and lastValidHost "255.255.255.254" (first < last). -/
theorem hostRange_31_32 (ip : String) (_hv : isValidIP ip = true) :
    ipToInt (calculateIPInfo ip 31).firstValidHost
      > ipToInt (calculateIPInfo ip 31).lastValidHost ∧
    (calculateIPInfo ip 32).firstValidHost = "0.0.0.1" ∧
    (calculateIPInfo ip 32).lastValidHost = "255.255.255.254" := by
  obtain ⟨f31, l31⟩ := hosts_31 ip
  obtain ⟨-, -, f32, l32⟩ := hosts_32 ip
  refine ⟨?_, f32, l32⟩
  rw [f31, l31]
  omega

theorem hostRange_31_32_witness :
    isValidIP "10.0.0.5" = true ∧
    (ipToInt (calculateIPInfo "10.0.0.5" 31).firstValidHost
        > ipToInt (calculateIPInfo "10.0.0.5" 31).lastValidHost ∧
      (calculateIPInfo "10.0.0.5" 32).firstValidHost = "0.0.0.1" ∧
      (calculateIPInfo "10.0.0.5" 32).lastValidHost = "255.255.255.254") :=
  ⟨by decide, hostRange_31_32 "10.0.0.5" (by decide)⟩

/-- Claim C4 (counterexample): `calculateIPInfo "1.1.1.1" 33` does not fail
with any structured error — it returns an ordinary result, whose mask is
the prefix-1 mask "128.0.0.0" because the shift count wraps (33 % 32 = 1).
Likewise the malformed address "1.2.3" is not rejected: the missing octet
is read as 0 and an ordinary result with network "1.2.3.0" comes back. -/
theorem calculateIPInfo_33_returns_result :
    (calculateIPInfo "1.1.1.1" 33).subnetMask = "128.0.0.0" ∧
    (calculateIPInfo "1.1.1.1" 33).networkAddress = "0.0.0.0" ∧
    (calculateIPInfo "1.1.1.1" 33).cidr = 33 ∧
    (isValidIP "1.2.3" = false ∧ (calculateIPInfo "1.2.3" 24).networkAddress = "1.2.3.0") := by
  decide

/-- Claim C4 (amended): `calculateIPInfo` performs no validation at all:
for every address text and every prefix — malformed or out of range — it
returns the ordinary record assembled from the conversion helpers; there
is no failure channel.  Address and prefix validation live in the
presentation layer, which calls `isValidIP` before invoking the engine. -/
theorem calculateIPInfo_no_validation (ip : String) (cidr : Nat) :
    calculateIPInfo ip cidr =
      { networkAddress := calculateNetworkAddress ip (cidrToSubnetMask cidr)
        broadcastAddress := calculateBroadcastAddress ip (cidrToSubnetMask cidr)
        firstValidHost :=
          calculateFirstHost (calculateNetworkAddress ip (cidrToSubnetMask cidr))
        lastValidHost :=
          calculateLastHost (calculateBroadcastAddress ip (cidrToSubnetMask cidr))
        totalHosts := 2 ^ (32 - cidr)
        usableHosts := if 2 ^ (32 - cidr) > 2 then 2 ^ (32 - cidr) - 2 else 0
        cidr := cidr
        subnetMask := cidrToSubnetMask cidr
        binarySubnetMask := ipToBinary (cidrToSubnetMask cidr)
        binaryIpAddress := ipToBinary ip
        binaryNetworkAddress :=
          ipToBinary (calculateNetworkAddress ip (cidrToSubnetMask cidr))
        wildcardMask := calculateWildcardMask (cidrToSubnetMask cidr)
        subnetBits :=
          cidr - (if cidr ≤ 8 then 0 else if cidr ≤ 16 then 8 else if cidr ≤ 24 then 16 else 24)
        hostBits := 32 - cidr } :=
  rfl

/-- Claim C5 (counterexample): `generateSubnets` does not fail with
`InvalidSubnetCount` for counts outside [2, 1024]: for count 1 it returns
a one-element list and for count 2000 it returns 64 subnets (the clamp at
/30 on a /24 base allows only 64). -/
theorem generateSubnets_no_count_check :
    (generateSubnets "10.0.0.0" 24 1).length = 1 ∧
    (generateSubnets "10.0.0.0" 24 2000).length = 64 := by
  decide

/-- Claim C5 (amended): the engine itself never refuses a subnet count:
for every address, prefix and count it returns a list of
`min(2^(newCidr - cidr), count)` subnets.  The [2, 1024] restriction is
enforced upstream by the SubnetGenerator form, which refuses to invoke
the engine for other counts. -/
theorem generateSubnets_total_length (ip : String) (cidr count : Nat) :
    (generateSubnets ip cidr count).length
      = min (2 ^ (min (cidr + ceilLog2 count) 30 - cidr)) count :=
  generateSubnets_len ip cidr count

/-- Claim C6 (counterexample): the validator accepts "010.0.0.1", but the
round trip through the integer form returns "10.0.0.1", not the original
text — so validity alone does not guarantee `intToIp (ipToInt A) = A`. -/
theorem roundtrip_fails_on_leading_zeros :
    isValidIP "010.0.0.1" = true ∧
    intToIp (ipToInt "010.0.0.1") ≠ "010.0.0.1" := by
  decide

/-- Claim C6 (amended): for every address text accepted by `isValidIP`
whose octets carry no superfluous leading zeros, converting to a 32-bit
integer and back returns the text unchanged:
`intToIp (ipToInt A) = A`. -/
theorem roundtrip_on_canonical (A : String) (hv : isValidIP A = true)
    (hz : ∀ p ∈ splitDot A.data, noLeadingZeros p = true) :
    intToIp (ipToInt A) = A :=
  intToIp_ipToInt_of_canonical hv hz

theorem roundtrip_on_canonical_witness :
    isValidIP "192.168.1.10" = true ∧
    intToIp (ipToInt "192.168.1.10") = "192.168.1.10" :=
  ⟨by decide, roundtrip_on_canonical "192.168.1.10" (by decide) (by decide)⟩

/-- Claim C7: for every 32-bit unsigned value V — including values with
the top bit set — `ipToInt (intToIp V) = V`: the rendering packs the four
octets big-endian and parsing recovers the same nonnegative value, with
no sign-bit corruption. -/
theorem int_roundtrip (V : Nat) (h : V < 2 ^ 32) : ipToInt (intToIp V) = V :=
  ipToInt_intToIp_small h

theorem int_roundtrip_witness :
    3232235786 < 2 ^ 32 ∧ ipToInt (intToIp 3232235786) = 3232235786 :=
  ⟨by decide, int_roundtrip 3232235786 (by decide)⟩

/-- Claim C8: within one generated batch the subnets are contiguous,
non-overlapping and ordered: broadcast address of subnet i plus one is
the network address of subnet i+1 (as 32-bit integers), and all subnets
share the common new prefix `min (cidr + ceil (log2 count)) 30`. -/
theorem generateSubnets_partition (ip : String) (cidr count : Nat)
    (_hv : isValidIP ip = true) (hc : cidr ≤ 32) (i : Nat)
    (h : i + 1 < (generateSubnets ip cidr count).length) :
    ipToInt ((generateSubnets ip cidr count).get
        ⟨i, Nat.lt_of_succ_lt h⟩).broadcastAddress + 1
      = ipToInt ((generateSubnets ip cidr count).get ⟨i + 1, h⟩).networkAddress ∧
    ∀ s ∈ generateSubnets ip cidr count, s.cidr = min (cidr + ceilLog2 count) 30 := by
  refine ⟨?_, fun s hs => generateSubnets_cidr_eq ip cidr count hs⟩
  rcases Nat.lt_or_ge cidr 31 with hlt | hge
  · exact partition_core ip cidr count (by omega) i h
  · exfalso
    have hN : min (cidr + ceilLog2 count) 30 = 30 := by omega
    have hlen := generateSubnets_len ip cidr count
    rw [hN] at hlen
    have h30 : 30 - cidr = 0 := by omega
    rw [h30, pow_zero] at hlen
    omega

theorem generateSubnets_partition_witness :
    ipToInt ((generateSubnets "192.168.0.0" 24 4).get ⟨0, by decide⟩).broadcastAddress + 1
      = ipToInt ((generateSubnets "192.168.0.0" 24 4).get ⟨1, by decide⟩).networkAddress ∧
    ∀ s ∈ generateSubnets "192.168.0.0" 24 4, s.cidr = min (24 + ceilLog2 4) 30 :=
  generateSubnets_partition "192.168.0.0" 24 4 (by decide) (by decide) 0 (by decide)

/-- Claim C9: for a valid address, base prefix in [0, 30] and count in
[2, 1024], the partitioner uses `newCidr = min (cidr + ceil (log2 count)) 30`
and returns exactly `min (2 ^ (newCidr - cidr)) count` subnets — silently
fewer than requested when the clamp applies — each carrying `cidr = newCidr`
and `usableHosts = 2 ^ (32 - newCidr) - 2 ≥ 2`. -/
theorem generateSubnets_shape (ip : String) (cidr count : Nat)
    (_hv : isValidIP ip = true) (_hc : cidr ≤ 30) (_h2 : 2 ≤ count)
    (_h1024 : count ≤ 1024) :
    (generateSubnets ip cidr count).length
      = min (2 ^ (min (cidr + Nat.clog 2 count) 30 - cidr)) count ∧
    ∀ s ∈ generateSubnets ip cidr count,
      s.cidr = min (cidr + Nat.clog 2 count) 30 ∧
      s.usableHosts = 2 ^ (32 - min (cidr + Nat.clog 2 count) 30) - 2 ∧
      2 ≤ s.usableHosts := by
  rw [← ceilLog2_eq_clog]
  refine ⟨generateSubnets_len ip cidr count, fun s hs => ?_⟩
  simp only [generateSubnets, List.mem_map, List.mem_range] at hs
  obtain ⟨j, hj, rfl⟩ := hs
  refine ⟨rfl, rfl, ?_⟩
  have hN2 : min (cidr + ceilLog2 count) 30 ≤ 30 := Nat.min_le_right _ _
  have h4 : (4 : Nat) ≤ 2 ^ (32 - min (cidr + ceilLog2 count) 30) := by
    calc (4 : Nat) = 2 ^ 2 := by norm_num
      _ ≤ 2 ^ (32 - min (cidr + ceilLog2 count) 30) :=
        Nat.pow_le_pow_right (by norm_num) (by omega)
  change 2 ≤ 2 ^ (32 - min (cidr + ceilLog2 count) 30) - 2
  omega

theorem generateSubnets_shape_witness :
    (generateSubnets "192.168.0.0" 24 4).length = 4 ∧
    ∀ s ∈ generateSubnets "192.168.0.0" 24 4, s.cidr = 26 ∧ s.usableHosts = 62 := by
  obtain ⟨hl, hall⟩ :=
    generateSubnets_shape "192.168.0.0" 24 4 (by decide) (by decide) (by decide) (by decide)
  have hclog : Nat.clog 2 4 = 2 := by norm_num [Nat.clog]
  rw [hclog] at hl hall
  constructor
  · rw [hl]
    decide
  · intro s hs
    obtain ⟨hc, hu, -⟩ := hall s hs
    rw [hc, hu]
    constructor <;> rfl

/-- Claim C10: the address validator accepts non-canonical octet spellings
with leading zeros — "010.0.0.1" and "192.168.001.010" both pass
`isValidIP` even though they differ from the canonical text `intToIp`
produces for the same value, so validity does not imply canonical
dotted-decimal form. -/
theorem isValidIP_accepts_leading_zeros :
    isValidIP "010.0.0.1" = true ∧
    isValidIP "192.168.001.010" = true ∧
    intToIp (ipToInt "010.0.0.1") = "10.0.0.1" ∧
    intToIp (ipToInt "192.168.001.010") = "192.168.1.10" ∧
    "10.0.0.1" ≠ "010.0.0.1" := by
  decide
